import Mathlib

/-!
# DDG-go: the translation pipeline of `main.go`

A shallow embedding of the pure parts of the gateway:

* `convertModel` (model name mapper),
* `prepareMessages` (message flattener),
* `requestToken` (what the credential broker returns for a handshake outcome),
* the two read loops of `handleCompletion` (stream translator).

Go strings are Lean strings (valid UTF-8 text); the helpers below work on the
character list. Library code the program calls but does not contain is taken
as an argument: `unmarshal` stands for `json.Unmarshal` into a
`map[string]interface{}`, `unicodeToLower` for the non-ASCII part of
`unicode.ToLower`, `sprintV` for `fmt.Sprintf("%v", _)`, and `writeOk` for the
outcome of the successive `c.Writer.Write` calls. An upstream body is the text
the reader delivers before it reports an error: both loops leave on any read
error, `io.EOF` or not, so a failed read is a body that ends there. The
`created` field of the responses is the wall clock and is left out.

The general theorems hold for every `unmarshal`; `jsonUnmarshal` below is a
decoder of the JSON grammar used to evaluate the examples.
-/

set_option autoImplicit false

namespace DDG

/-! ## Strings -/

/-- `strings.HasPrefix`. -/
def hasPrefix (s p : String) : Bool :=
  p.data.isPrefixOf s.data

/-- `strings.TrimPrefix`. -/
def trimPrefix (s p : String) : String :=
  if hasPrefix s p then ⟨s.data.drop p.data.length⟩ else s

/-- `unicode.IsSpace`: the Latin-1 white space and the `White_Space` table. -/
def isSpace (c : Char) : Bool :=
  let n := c.toNat
  n = 0x09 || n = 0x0A || n = 0x0B || n = 0x0C || n = 0x0D || n = 0x20 ||
  n = 0x85 || n = 0xA0 || n = 0x1680 || (0x2000 ≤ n && n ≤ 0x200A) ||
  n = 0x2028 || n = 0x2029 || n = 0x202F || n = 0x205F || n = 0x3000

/-- `strings.TrimSpace`: leading and trailing white space removed. -/
def trimSpace (s : String) : String :=
  ⟨((s.data.dropWhile isSpace).reverse.dropWhile isSpace).reverse⟩

/-- Lower-casing of one rune, `unicode.ToLower`: the ASCII letters are
shifted, other ASCII runes are kept, and runes above ASCII go through the
case table `unicodeToLower`. -/
def toLowerRune (unicodeToLower : Char → Char) (c : Char) : Char :=
  if c.toNat < 128 then
    if 'A' ≤ c ∧ c ≤ 'Z' then Char.ofNat (c.toNat + 32) else c
  else unicodeToLower c

/-- `strings.ToLower`. -/
def toLower (unicodeToLower : Char → Char) (s : String) : String :=
  ⟨s.data.map (toLowerRune unicodeToLower)⟩

/-- Concatenation of a list of strings, left to right. -/
def concatAll : List String → String
  | [] => ""
  | s :: rest => s ++ concatAll rest

/-! ## Decoded JSON values -/

/-- What `encoding/json` stores in an `interface{}`: `nil`, `bool`, `float64`
(kept as its literal), `string`, `[]interface{}`, `map[string]interface{}`. A
map is an association list read with `List.lookup`. -/
inductive JSON where
  | null
  | bool (b : Bool)
  | num (lit : String)
  | str (s : String)
  | arr (items : List JSON)
  | obj (fields : List (String × JSON))

/-- The result of `json.Unmarshal(data, &chunk)` for a fresh
`chunk map[string]interface{}`: `none` when an error is returned, else the map. -/
abbrev Unmarshal := String → Option (List (String × JSON))

/-! ## Model name mapper -/

/-- `convertModel` (main.go 372-383): a switch on the lower-cased input. -/
def convertModel (unicodeToLower : Char → Char) (inputModel : String) : String :=
  let m := toLower unicodeToLower inputModel
  if m = "claude-3-haiku" then "claude-3-haiku-20240307"
  else if m = "llama-3.1-70b" then "meta-llama/Meta-Llama-3.1-70B-Instruct-Turbo"
  else if m = "mixtral-8x7b" then "mistralai/Mixtral-8x7B-Instruct-v0.1"
  else "gpt-4o-mini"

/-! ## Message flattener -/

/-- One element of `req.Messages`. -/
structure Message where
  role : String
  content : JSON

/-- The inner loop of `prepareMessages` over the parts of a list content:
`contentStr += text` for every part that is a map whose `"text"` is a string. -/
def appendParts (contentStr : String) : List JSON → String
  | [] => contentStr
  | item :: rest =>
    match item with
    | .obj itemMap =>
      match itemMap.lookup "text" with
      | some (.str text) => appendParts (contentStr ++ text) rest
      | _ => appendParts contentStr rest
    | _ => appendParts contentStr rest

/-- The type switch of `prepareMessages` on `msg.Content`. -/
def contentString (sprintV : JSON → String) (content : JSON) : String :=
  match content with
  | .str v => v
  | .arr v => appendParts "" v
  | other => sprintV other

/-- The role written for a message: `"system"` becomes `"user"`. -/
def messageRole (role : String) : String :=
  if role = "system" then "user" else role

/-- The loop of `prepareMessages`, `contentBuilder` being the builder so far. -/
def prepareLoop (sprintV : JSON → String) (contentBuilder : String) : List Message → String
  | [] => contentBuilder
  | msg :: rest =>
    prepareLoop sprintV
      (contentBuilder ++
        (messageRole msg.role ++ ":" ++ contentString sprintV msg.content ++ ";\r\n"))
      rest

/-- `prepareMessages` (main.go 335-370). -/
def prepareMessages (sprintV : JSON → String) (messages : List Message) : String :=
  prepareLoop sprintV "" messages

/-! ## Credential broker -/

/-- What `requestToken` reads of the handshake response. `header` is
`resp.Header.Get`, which gives `""` for an absent header. -/
structure Response where
  statusCode : Nat
  header : String → String
  body : String

/-- `requestToken` (main.go 298-333), as a function of the outcome of
`client.Do`: a transport error message or a response. The result is the Go
pair `(token, err)`, `none` being a nil error. The status is the non-negative
integer `net/http` parsed, written in decimal by `%d`. -/
def requestToken (outcome : Except String Response) : String × Option String :=
  match outcome with
  | .error err => ("", some ("请求失败: " ++ err))
  | .ok resp =>
    if resp.statusCode ≠ 200 then
      ("", some ("非200响应: " ++ toString resp.statusCode ++ ", 内容: " ++ resp.body))
    else
      let token := resp.header "x-vqd-4"
      if token = "" then ("", some "响应中未包含x-vqd-4头")
      else (token, none)

/-! ## Stream translator -/

/-- The lines `reader.ReadString('\n')` returns without an error, delimiter
included: `cur` holds the current line reversed. What is left when the body
ends is returned together with the error, and both loops then `break`. -/
def readLinesAux : List Char → List Char → List String
  | _, [] => []
  | cur, c :: rest =>
    if c = '\n' then ⟨(c :: cur).reverse⟩ :: readLinesAux [] rest
    else readLinesAux (c :: cur) rest

/-- The successive lines read from an upstream body. -/
def readLines (body : String) : List String :=
  readLinesAux [] body.data

/-- An outgoing chunk; `created` (the wall clock) is left out. -/
structure Chunk where
  id : String
  object : String
  model : String
  index : Nat
  content : String
  finishReason : Option String
  deriving DecidableEq, Repr

/-- The `response` map built for one fragment in streaming mode. -/
def mkChunk (model msgStr : String) : Chunk :=
  { id := "chatcmpl-QXlha2FBbmROaXhpZUFyZUF3ZXNvbWUK"
    object := "chat.completion.chunk"
    model := model
    index := 0
    content := msgStr
    finishReason := none }

/-- The streaming loop (main.go 181-235) over the lines read. `written`
counts the chunks written so far and `writeOk written` tells whether the next
write succeeds; a failed write leaves the loop. The result is the chunks
written, in order. -/
def streamLoop (unmarshal : Unmarshal) (writeOk : Nat → Bool) (model : String)
    (written : Nat) : List String → List Chunk
  | [] => []
  | line :: rest =>
    if hasPrefix line "data: " then
      match unmarshal (trimPrefix line "data: ") with
      | none => streamLoop unmarshal writeOk model written rest
      | some chunk =>
        match chunk.lookup "message" with
        | none => streamLoop unmarshal writeOk model written rest
        | some .null => streamLoop unmarshal writeOk model written rest
        | some (.str msgStr) =>
          if writeOk written then
            mkChunk model msgStr :: streamLoop unmarshal writeOk model (written + 1) rest
          else []
        | some _ => streamLoop unmarshal writeOk model written rest
    else streamLoop unmarshal writeOk model written rest

/-- The non-streaming loop (main.go 241-270) over the lines read,
`fullResponse` being the builder so far. -/
def fullLoop (unmarshal : Unmarshal) (fullResponse : String) : List String → String
  | [] => fullResponse
  | line :: rest =>
    if hasPrefix line "data: " then
      let payload := trimSpace (trimPrefix line "data: ")
      if payload = "[DONE]" then fullResponse
      else
        match unmarshal payload with
        | none => fullLoop unmarshal fullResponse rest
        | some chunk =>
          match chunk.lookup "message" with
          | some (.str msgStr) => fullLoop unmarshal (fullResponse ++ msgStr) rest
          | _ => fullLoop unmarshal fullResponse rest
    else fullLoop unmarshal fullResponse rest

/-- The completion object of non-streaming mode; `created` is left out. -/
structure Completion where
  id : String
  object : String
  model : String
  promptTokens : Nat
  completionTokens : Nat
  totalTokens : Nat
  role : String
  content : String
  index : Nat
  deriving DecidableEq, Repr

/-- The `response` map built after the non-streaming loop. -/
def mkCompletion (model content : String) : Completion :=
  { id := "chatcmpl-QXlha2FBbmROaXhpZUFyZUF3ZXNvbWUK"
    object := "chat.completion"
    model := model
    promptTokens := 0
    completionTokens := 0
    totalTokens := 0
    role := "assistant"
    content := content
    index := 0 }

/-- What the handler sends for an upstream body. -/
inductive Output where
  | chunks (cs : List Chunk)
  | completion (c : Completion)
  deriving DecidableEq, Repr

/-- The translation part of `handleCompletion` (main.go 168-295, from
`if req.Stream` on), `model` being `convertModel(req.Model)`. -/
def handleCompletion (unmarshal : Unmarshal) (writeOk : Nat → Bool) (model : String)
    (stream : Bool) (body : String) : Output :=
  if stream then .chunks (streamLoop unmarshal writeOk model 0 (readLines body))
  else .completion (mkCompletion model (fullLoop unmarshal "" (readLines body)))

/-! ## A JSON decoder for the examples -/

/-- JSON white space. -/
def isJSONSpace (c : Char) : Bool :=
  c = ' ' || c = '\t' || c = '\r' || c = '\n'

/-- Leading JSON white space removed. -/
def skipSpace (s : List Char) : List Char :=
  s.dropWhile isJSONSpace

/-- The value of a hexadecimal digit. -/
def hexDigit (c : Char) : Option Nat :=
  if '0' ≤ c ∧ c ≤ '9' then some (c.toNat - 48)
  else if 'a' ≤ c ∧ c ≤ 'f' then some (c.toNat - 87)
  else if 'A' ≤ c ∧ c ≤ 'F' then some (c.toNat - 55)
  else none

/-- The 16-bit value written by the four hexadecimal digits of a `\uXXXX`
escape. -/
def hex4 (a b c d : Char) : Option Nat :=
  match hexDigit a, hexDigit b, hexDigit c, hexDigit d with
  | some x, some y, some z, some w => some (((x * 16 + y) * 16 + z) * 16 + w)
  | _, _, _, _ => none

/-- A string body after its opening quote: the decoded text and the rest of
the input. `acc` is the text so far, reversed; the first argument bounds the
number of steps and is the length of the input plus one. A `\uXXXX` escape
that is a high surrogate followed by a low-surrogate escape gives the rune of
the pair; any other surrogate escape gives U+FFFD. -/
def decodeString : Nat → List Char → List Char → Option (String × List Char)
  | 0, _, _ => none
  | _ + 1, _, [] => none
  | fuel + 1, acc, c :: rest =>
    if c = '"' then some (⟨acc.reverse⟩, rest)
    else if c = '\\' then
      match rest with
      | [] => none
      | e :: rest1 =>
        if e = '"' then decodeString fuel ('"' :: acc) rest1
        else if e = '\\' then decodeString fuel ('\\' :: acc) rest1
        else if e = '/' then decodeString fuel ('/' :: acc) rest1
        else if e = 'b' then decodeString fuel (Char.ofNat 8 :: acc) rest1
        else if e = 'f' then decodeString fuel (Char.ofNat 12 :: acc) rest1
        else if e = 'n' then decodeString fuel ('\n' :: acc) rest1
        else if e = 'r' then decodeString fuel ('\r' :: acc) rest1
        else if e = 't' then decodeString fuel ('\t' :: acc) rest1
        else if e = 'u' then
          match rest1 with
          | a :: b :: x :: d :: rest2 =>
            match hex4 a b x d with
            | none => none
            | some n =>
              if 0xD800 ≤ n ∧ n < 0xE000 then
                match rest2 with
                | bs :: u :: a2 :: b2 :: x2 :: d2 :: rest3 =>
                  match hex4 a2 b2 x2 d2 with
                  | some n2 =>
                    if bs = '\\' ∧ u = 'u' ∧ n < 0xDC00 ∧ 0xDC00 ≤ n2 ∧ n2 < 0xE000 then
                      decodeString fuel
                        (Char.ofNat (0x10000 + (n - 0xD800) * 0x400 + (n2 - 0xDC00)) :: acc)
                        rest3
                    else decodeString fuel (Char.ofNat 0xFFFD :: acc) rest2
                  | none => decodeString fuel (Char.ofNat 0xFFFD :: acc) rest2
                | _ => decodeString fuel (Char.ofNat 0xFFFD :: acc) rest2
              else decodeString fuel (Char.ofNat n :: acc) rest2
          | _ => none
        else none
    else if c.toNat < 0x20 then none
    else decodeString fuel (c :: acc) rest

/-- One or more decimal digits: the digits and the rest. -/
def digits1 (s : List Char) : Option (List Char × List Char) :=
  match s.span Char.isDigit with
  | ([], _) => none
  | (ds, rest) => some (ds, rest)

/-- The number a run of decimal digits writes. -/
def digitsValue (ds : List Char) : Nat :=
  ds.foldl (fun n c => n * 10 + (c.toNat - 48)) 0

/-- Whether the decimal `mantissa * 10 ^ (± expo - fracLen)` rounds beyond the
largest `float64`, that is, reaches `2^1024 - 2^970`; `strconv.ParseFloat`
then reports a range error and the decoding fails. -/
def overflowsFloat64 (mantissa : List Char) (fracLen : Nat) (expNeg : Bool)
    (expo : Nat) : Bool :=
  let m := digitsValue mantissa
  let limit := 2 ^ 1024 - 2 ^ 970
  if m = 0 then false
  else if expNeg then
    if mantissa.length ≤ expo + fracLen then false
    else decide (limit * 10 ^ (expo + fracLen) ≤ m)
  else if fracLen ≤ expo then
    if 400 < expo - fracLen then true
    else decide (limit ≤ m * 10 ^ (expo - fracLen))
  else
    if mantissa.length ≤ fracLen - expo then false
    else decide (limit * 10 ^ (fracLen - expo) ≤ m)

/-- A number literal within the range of `float64`: its text and the rest of
the input. -/
def decodeNumber (s : List Char) : Option (String × List Char) :=
  let (sign, s1) := match s with
    | '-' :: t => (['-'], t)
    | _ => ([], s)
  let intPart : Option (List Char × List Char) := match s1 with
    | '0' :: t => some (['0'], t)
    | _ => digits1 s1
  match intPart with
  | none => none
  | some (ip, s2) =>
    let frac : Option (List Char × List Char) := match s2 with
      | '.' :: t => digits1 t
      | _ => some ([], s2)
    match frac with
    | none => none
    | some (fd, s3) =>
      let ex : Option ((List Char × Bool × List Char) × List Char) := match s3 with
        | e :: t =>
          if e = 'e' ∨ e = 'E' then
            match t with
            | g :: u =>
              if g = '+' ∨ g = '-' then
                (digits1 u).map fun p => (([e, g], decide (g = '-'), p.1), p.2)
              else (digits1 t).map fun p => (([e], false, p.1), p.2)
            | [] => none
          else some (([], false, []), s3)
        | [] => some (([], false, []), s3)
      match ex with
      | none => none
      | some ((mark, expNeg, ed), s4) =>
        if overflowsFloat64 (ip ++ fd) fd.length expNeg (digitsValue ed) then none
        else
          some (⟨sign ++ ip ++ (if fd = [] then [] else '.' :: fd) ++ mark ++ ed⟩, s4)

/-- The nesting depth past which `encoding/json` reports an error. -/
def maxNestingDepth : Nat := 10000

mutual
/-- A JSON value after optional white space: the value and the rest. `depth`
counts the objects and arrays that are open. -/
def decodeValue : Nat → Nat → List Char → Option (JSON × List Char)
  | 0, _, _ => none
  | fuel + 1, depth, s =>
    match skipSpace s with
    | [] => none
    | c :: rest =>
      if c = Char.ofNat 123 then
        if maxNestingDepth ≤ depth then none
        else
          match skipSpace rest with
          | [] => none
          | d :: rest1 =>
            if d = Char.ofNat 125 then some (.obj [], rest1)
            else decodeMembers fuel (depth + 1) [] (d :: rest1)
      else if c = '[' then
        if maxNestingDepth ≤ depth then none
        else
          match skipSpace rest with
          | [] => none
          | d :: rest1 =>
            if d = ']' then some (.arr [], rest1)
            else decodeItems fuel (depth + 1) [] (d :: rest1)
      else if c = '"' then
        (decodeString (rest.length + 1) [] rest).map fun p => (.str p.1, p.2)
      else if "true".data.isPrefixOf (c :: rest) then some (.bool true, rest.drop 3)
      else if "false".data.isPrefixOf (c :: rest) then some (.bool false, rest.drop 4)
      else if "null".data.isPrefixOf (c :: rest) then some (.null, rest.drop 3)
      else (decodeNumber (c :: rest)).map fun p => (.num p.1, p.2)
/-- The members of an object up to its closing brace; a later key shadows an
earlier equal one, as in a Go map. -/
def decodeMembers :
    Nat → Nat → List (String × JSON) → List Char → Option (JSON × List Char)
  | 0, _, _, _ => none
  | fuel + 1, depth, acc, s =>
    match skipSpace s with
    | c :: rest =>
      if c = '"' then
        match decodeString (rest.length + 1) [] rest with
        | none => none
        | some (key, rest1) =>
          match skipSpace rest1 with
          | e :: rest2 =>
            if e = ':' then
              match decodeValue fuel depth rest2 with
              | none => none
              | some (v, rest3) =>
                match skipSpace rest3 with
                | f :: rest4 =>
                  if f = ',' then decodeMembers fuel depth ((key, v) :: acc) rest4
                  else if f = Char.ofNat 125 then some (.obj ((key, v) :: acc), rest4)
                  else none
                | [] => none
            else none
          | [] => none
      else none
    | [] => none
/-- The items of an array up to its closing bracket. -/
def decodeItems : Nat → Nat → List JSON → List Char → Option (JSON × List Char)
  | 0, _, _, _ => none
  | fuel + 1, depth, acc, s =>
    match decodeValue fuel depth s with
    | none => none
    | some (v, rest) =>
      match skipSpace rest with
      | f :: rest1 =>
        if f = ',' then decodeItems fuel depth (v :: acc) rest1
        else if f = ']' then some (.arr (v :: acc).reverse, rest1)
        else none
      | [] => none
end

/-- A decoder for `unmarshal`: a JSON object gives its map, `null` leaves the
map nil (no entry), and every other text is an error. -/
def jsonUnmarshal : Unmarshal := fun data =>
  match decodeValue (data.data.length + 1) 0 data.data with
  | some (.obj m, rest) => if skipSpace rest = [] then some m else none
  | some (.null, rest) => if skipSpace rest = [] then some [] else none
  | _ => none

/-! ## Readings of an upstream line -/

/-- A newline-terminated line: text without a newline, then one newline. -/
def isLine (l : String) : Bool :=
  match l.data.reverse with
  | [] => false
  | c :: t => c = '\n' && !t.contains '\n'

/-- The string stored under `"message"` by a decoding, if there is one. -/
def messageOf (decoded : Option (List (String × JSON))) : Option String :=
  match decoded with
  | some m =>
    match m.lookup "message" with
    | some (.str s) => some s
    | _ => none
  | none => none

/-- Streaming mode as the specification words it: the fragment of a line that
starts with the marker and whose payload parses to an object holding a
non-null string `message`. -/
def streamFragment (unmarshal : Unmarshal) (line : String) : Option String :=
  if hasPrefix line "data: " then messageOf (unmarshal (trimPrefix line "data: "))
  else none

/-- A marked line whose trimmed payload is the sentinel. -/
def isSentinel (line : String) : Bool :=
  hasPrefix line "data: " && trimSpace (trimPrefix line "data: ") == "[DONE]"

/-- The fragment of a line in non-streaming mode: the string `"message"` of a
marked line, what is decoded being the text after the marker with its leading
and trailing white space removed (`strings.TrimSpace`). -/
def fullFragment (unmarshal : Unmarshal) (line : String) : Option String :=
  if hasPrefix line "data: " then
    messageOf (unmarshal (trimSpace (trimPrefix line "data: ")))
  else none

/-- The fragments, on the trimmed payload, of the lines before the first
sentinel, concatenated in order. -/
def trimmedContent (unmarshal : Unmarshal) (lines : List String) : String :=
  concatAll ((lines.takeWhile fun l => !isSentinel l).filterMap (fullFragment unmarshal))

/-- A decoding that is no JSON object: an error, or no entry at all (what
`null` leaves). -/
def notObject (decoded : Option (List (String × JSON))) : Bool :=
  match decoded with
  | none => true
  | some m => m.isEmpty

/-- A malformed line for streaming mode: no marker, or a payload (the text
after the marker) that is no JSON object. -/
def malformedStream (unmarshal : Unmarshal) (line : String) : Bool :=
  !hasPrefix line "data: " || notObject (unmarshal (trimPrefix line "data: "))

/-- A line that non-streaming mode passes over: no marker, or a payload that,
once its leading and trailing white space is removed, is neither the sentinel
nor a JSON object. -/
def malformedFull (unmarshal : Unmarshal) (line : String) : Bool :=
  !hasPrefix line "data: " ||
    (!isSentinel line && notObject (unmarshal (trimSpace (trimPrefix line "data: "))))

/-- The aggregated content in the words of the claim on non-streaming mode:
the string `"message"` of the marked lines whose payload, the text after the
marker, parses as a JSON object, over the lines before the first marked line
whose trimmed payload is the sentinel. -/
def claimedContent (unmarshal : Unmarshal) (lines : List String) : String :=
  concatAll ((lines.takeWhile fun l => !isSentinel l).filterMap (streamFragment unmarshal))

/-- A malformed line in the words of the resilience claim, for non-streaming
mode: no marker, or a marked line whose payload, the text after the marker,
does not parse as a JSON object and which is not the sentinel. -/
def claimedMalformedFull (unmarshal : Unmarshal) (line : String) : Bool :=
  !hasPrefix line "data: " ||
    (notObject (unmarshal (trimPrefix line "data: ")) && !isSentinel line)

/-- The text of a content part as the specification words it: the `"text"`
of a part that is an object with a string-valued `"text"`. -/
def partText : JSON → Option String
  | .obj fields =>
    match fields.lookup "text" with
    | some (.str t) => some t
    | _ => none
  | _ => none

/-- The segment the specification gives a message with plain-text content. -/
def textSegment (role content : String) : String :=
  (if role = "system" then "user" else role) ++ ":" ++ content ++ ";\r\n"

/-- Whether a line carries a non-empty string `"message"` in streaming mode. -/
def carriesNonEmpty (unmarshal : Unmarshal) (line : String) : Bool :=
  match streamFragment unmarshal line with
  | some s => s != ""
  | none => false

/-- Whether a line carries a string `"message"` in streaming mode, empty or
not. -/
def carriesString (unmarshal : Unmarshal) (line : String) : Bool :=
  (streamFragment unmarshal line).isSome

/-! ## Sample inputs -/

/-- The four upstream lines of the specification's example: two fragments,
a payload that is no JSON, and a null `message`. -/
def sampleLines : List String :=
  ["data: \x7b\"message\":\"a\"\x7d\n", "data: \x7b\"message\":\"b\"\x7d\n",
    "data: notjson\n", "data: \x7b\"message\":null\x7d\n"]

/-- A marked line whose JSON object is preceded by a no-break space: the
payload as it stands is no JSON text, the trimmed payload is. -/
def paddedLine : String :=
  "data: \u00A0\x7b\"message\":\"a\"\x7d\n"

/-- A writer whose every write succeeds. -/
def alwaysWrites : Nat → Bool := fun _ => true

/-- A handshake response with the given status whose only header is the token
header with value `token`. -/
def sampleResponse (status : Nat) (token body : String) : Response :=
  { statusCode := status
    header := fun k => if k = "x-vqd-4" then token else ""
    body := body }

/-! ## Lemmas -/

theorem concatAll_append (xs ys : List String) :
    concatAll (xs ++ ys) = concatAll xs ++ concatAll ys := by
  induction xs with
  | nil => simp [concatAll]
  | cons x xs ih => simp [concatAll, ih, String.append_assoc]

theorem readLinesAux_noNewline (cur t : List Char) (h : '\n' ∉ t) :
    readLinesAux cur t = [] := by
  induction t generalizing cur with
  | nil => rfl
  | cons c t ih =>
    have hc : c ≠ '\n' := fun e => h (e ▸ List.mem_cons_self _ _)
    have ht : '\n' ∉ t := fun m => h (List.mem_cons_of_mem _ m)
    simp [readLinesAux, hc, ih _ ht]

theorem readLinesAux_line (cur t rest : List Char) (h : '\n' ∉ t) :
    readLinesAux cur (t ++ '\n' :: rest)
      = ⟨cur.reverse ++ t ++ ['\n']⟩ :: readLinesAux [] rest := by
  induction t generalizing cur with
  | nil => simp [readLinesAux]
  | cons c t ih =>
    have hc : c ≠ '\n' := fun e => h (e ▸ List.mem_cons_self _ _)
    have ht : '\n' ∉ t := fun m => h (List.mem_cons_of_mem _ m)
    simp [readLinesAux, hc, ih _ ht]

theorem isLine_iff (l : String) :
    isLine l = true ↔ ∃ t, '\n' ∉ t ∧ l.data = t ++ ['\n'] := by
  unfold isLine
  constructor
  · intro h
    split at h
    · simp at h
    · rename_i c t hr
      simp at h
      refine ⟨t.reverse, by simpa using h.2, ?_⟩
      have := congrArg List.reverse hr
      simpa [h.1] using this
  · rintro ⟨t, ht, hd⟩
    simp [hd, ht]

theorem readLines_concatAll (ls : List String) (t : String)
    (hl : ∀ l ∈ ls, isLine l = true) (ht : '\n' ∉ t.data) :
    readLines (concatAll ls ++ t) = ls := by
  induction ls with
  | nil => simpa [readLines, concatAll] using readLinesAux_noNewline [] t.data ht
  | cons l ls ih =>
    obtain ⟨u, hu, hd⟩ := (isLine_iff l).1 (hl l (List.mem_cons_self _ _))
    have ih1 := ih fun x hx => hl x (List.mem_cons_of_mem _ hx)
    have hl1 : l = ⟨u ++ ['\n']⟩ := by rw [← hd]
    unfold readLines at ih1 ⊢
    simp only [concatAll, String.data_append, hd, List.append_assoc, List.singleton_append,
      List.cons_append]
    rw [readLinesAux_line _ _ _ hu]
    simp only [String.data_append] at ih1
    simp [ih1, hl1]
/-! ### The streaming loop -/

theorem streamLoop_cons (unmarshal : Unmarshal) (writeOk : Nat → Bool) (model : String)
    (k : Nat) (line : String) (rest : List String) :
    streamLoop unmarshal writeOk model k (line :: rest) =
      match streamFragment unmarshal line with
      | none => streamLoop unmarshal writeOk model k rest
      | some s =>
        if writeOk k then mkChunk model s :: streamLoop unmarshal writeOk model (k + 1) rest
        else [] := by
  simp only [streamLoop, streamFragment, messageOf]
  by_cases hp : hasPrefix line "data: " = true
  · simp only [hp, if_true]
    cases hu : unmarshal (trimPrefix line "data: ") with
    | none => rfl
    | some chunk =>
      simp only
      cases hm : List.lookup "message" chunk with
      | none => rfl
      | some v => cases v <;> rfl
  · simp only [hp]
    rfl

theorem streamFragment_of_malformed (unmarshal : Unmarshal) (m : String)
    (hm : malformedStream unmarshal m = true) : streamFragment unmarshal m = none := by
  unfold malformedStream at hm
  unfold streamFragment
  by_cases hp : hasPrefix m "data: " = true
  · simp only [hp, if_true]
    simp only [hp, Bool.not_true, Bool.false_or] at hm
    cases hu : unmarshal (trimPrefix m "data: ") with
    | none => rfl
    | some chunk =>
      rw [hu] at hm
      simp only [notObject, List.isEmpty_iff] at hm
      subst hm
      rfl
  · simp [hp]

theorem streamLoop_eq_filterMap (unmarshal : Unmarshal) (writeOk : Nat → Bool)
    (model : String) (hw : ∀ k, writeOk k = true) (k : Nat) (ls : List String) :
    streamLoop unmarshal writeOk model k ls
      = (ls.filterMap (streamFragment unmarshal)).map (mkChunk model) := by
  induction ls generalizing k with
  | nil => rfl
  | cons l ls ih =>
    rw [streamLoop_cons]
    cases hf : streamFragment unmarshal l with
    | none => simp [List.filterMap_cons, hf, ih]
    | some s => simp [List.filterMap_cons, hf, ih, hw]

theorem streamLoop_insert (unmarshal : Unmarshal) (writeOk : Nat → Bool) (model : String)
    (m : String) (hm : malformedStream unmarshal m = true) (pre post : List String)
    (k : Nat) :
    streamLoop unmarshal writeOk model k (pre ++ m :: post)
      = streamLoop unmarshal writeOk model k (pre ++ post) := by
  induction pre generalizing k with
  | nil =>
    rw [List.nil_append, List.nil_append, streamLoop_cons,
      streamFragment_of_malformed unmarshal m hm]
  | cons l pre ih =>
    rw [List.cons_append, List.cons_append, streamLoop_cons, streamLoop_cons]
    cases streamFragment unmarshal l with
    | none => exact ih k
    | some s => simp only [ih (k + 1)]

/-! ### The non-streaming loop -/

theorem fullLoop_cons (unmarshal : Unmarshal) (acc line : String) (rest : List String) :
    fullLoop unmarshal acc (line :: rest) =
      if isSentinel line = true then acc
      else
        match fullFragment unmarshal line with
        | none => fullLoop unmarshal acc rest
        | some s => fullLoop unmarshal (acc ++ s) rest := by
  simp only [fullLoop, fullFragment, isSentinel, messageOf]
  by_cases hp : hasPrefix line "data: " = true
  · simp only [hp, if_true, Bool.true_and, beq_iff_eq]
    by_cases hs : trimSpace (trimPrefix line "data: ") = "[DONE]"
    · simp [hs]
    · simp only [hs, if_false]
      cases hu : unmarshal (trimSpace (trimPrefix line "data: ")) with
      | none => rfl
      | some chunk =>
        simp only
        cases hm : List.lookup "message" chunk with
        | none => rfl
        | some v => cases v <;> rfl
  · simp [hp]

theorem fullLoop_eq_trimmedContent (unmarshal : Unmarshal) (acc : String) (ls : List String) :
    fullLoop unmarshal acc ls = acc ++ trimmedContent unmarshal ls := by
  induction ls generalizing acc with
  | nil => simp [fullLoop, trimmedContent, concatAll]
  | cons l ls ih =>
    rw [fullLoop_cons]
    by_cases hs : isSentinel l = true
    · simp [hs, trimmedContent, concatAll]
    · simp only [hs, if_false]
      have hs1 : isSentinel l = false := by simpa using hs
      cases hf : fullFragment unmarshal l with
      | none =>
        simp only [ih, trimmedContent, List.takeWhile_cons, hs1, Bool.not_false, if_true,
          List.filterMap_cons, hf, Bool.false_eq_true, if_false]
      | some s =>
        simp only [ih, trimmedContent, List.takeWhile_cons, hs1, Bool.not_false, if_true,
          List.filterMap_cons, hf, concatAll, String.append_assoc, Bool.false_eq_true, if_false]

theorem fullFragment_of_malformed (unmarshal : Unmarshal) (m : String)
    (hm : malformedFull unmarshal m = true) :
    isSentinel m = false ∧ fullFragment unmarshal m = none := by
  unfold malformedFull at hm
  unfold fullFragment
  by_cases hp : hasPrefix m "data: " = true
  · simp only [hp, if_true]
    simp only [hp, Bool.not_true, Bool.false_or, Bool.and_eq_true, Bool.not_eq_true'] at hm
    refine ⟨hm.1, ?_⟩
    cases hu : unmarshal (trimSpace (trimPrefix m "data: ")) with
    | none => rfl
    | some chunk =>
      have h2 := hm.2
      rw [hu] at h2
      simp only [notObject, List.isEmpty_iff] at h2
      subst h2
      rfl
  · simp [hp, isSentinel]

theorem fullLoop_insert (unmarshal : Unmarshal) (m : String)
    (hm : malformedFull unmarshal m = true) (pre post : List String) (acc : String) :
    fullLoop unmarshal acc (pre ++ m :: post) = fullLoop unmarshal acc (pre ++ post) := by
  obtain ⟨h1, h2⟩ := fullFragment_of_malformed unmarshal m hm
  induction pre generalizing acc with
  | nil => rw [List.nil_append, List.nil_append, fullLoop_cons, h1, h2]; rfl
  | cons l pre ih =>
    rw [List.cons_append, List.cons_append, fullLoop_cons, fullLoop_cons]
    by_cases hs : isSentinel l = true
    · simp [hs]
    · simp only [hs, if_false]
      cases fullFragment unmarshal l with
      | none => exact ih acc
      | some s => exact ih (acc ++ s)

theorem fullLoop_sentinel (unmarshal : Unmarshal) (s : String) (hs : isSentinel s = true)
    (pre post : List String) (acc : String) :
    fullLoop unmarshal acc (pre ++ s :: post) = fullLoop unmarshal acc pre := by
  induction pre generalizing acc with
  | nil => rw [List.nil_append, fullLoop_cons, if_pos hs]; rfl
  | cons l pre ih =>
    rw [List.cons_append, fullLoop_cons, fullLoop_cons]
    by_cases hl : isSentinel l = true
    · simp [hl]
    · simp only [hl, if_false]
      cases fullFragment unmarshal l with
      | none => exact ih acc
      | some t => exact ih (acc ++ t)

theorem readLines_concatAll_self (ls : List String) (hl : ∀ l ∈ ls, isLine l = true) :
    readLines (concatAll ls) = ls := by
  have h := readLines_concatAll ls "" hl (by simp)
  simpa using h

/-! ### The message flattener -/

theorem appendParts_eq (acc : String) (parts : List JSON) :
    appendParts acc parts = acc ++ concatAll (parts.filterMap partText) := by
  induction parts generalizing acc with
  | nil => simp [appendParts, concatAll]
  | cons p parts ih =>
    cases p with
    | obj fields =>
      simp only [appendParts, List.filterMap_cons, partText]
      cases hf : List.lookup "text" fields with
      | none => simp only [ih]
      | some v => cases v <;> simp only [ih, concatAll, String.append_assoc]
    | _ => simp only [appendParts, List.filterMap_cons, partText, ih]

theorem prepareLoop_eq (sprintV : JSON → String) (acc : String) (ms : List Message) :
    prepareLoop sprintV acc ms = acc ++ prepareMessages sprintV ms := by
  induction ms generalizing acc with
  | nil => simp [prepareMessages, prepareLoop]
  | cons m ms ih =>
    simp only [prepareMessages, prepareLoop]
    rw [ih, ih ("" ++ _)]
    simp [String.append_assoc]

theorem prepareMessages_cons (sprintV : JSON → String) (m : Message) (ms : List Message) :
    prepareMessages sprintV (m :: ms)
      = (messageRole m.role ++ ":" ++ contentString sprintV m.content ++ ";\r\n")
          ++ prepareMessages sprintV ms := by
  conv_lhs => unfold prepareMessages
  simp only [prepareLoop]
  rw [prepareLoop_eq]
  simp

theorem prepareMessages_append (sprintV : JSON → String) (xs ys : List Message) :
    prepareMessages sprintV (xs ++ ys)
      = prepareMessages sprintV xs ++ prepareMessages sprintV ys := by
  induction xs with
  | nil => simp [prepareMessages, prepareLoop]
  | cons x xs ih =>
    rw [List.cons_append, prepareMessages_cons, prepareMessages_cons, ih]
    simp only [String.append_assoc]

theorem toLower_ascii_fixed (tbl : Char → Char) :
    toLower tbl "claude-3-haiku" = "claude-3-haiku"
      ∧ toLower tbl "llama-3.1-70b" = "llama-3.1-70b"
      ∧ toLower tbl "mixtral-8x7b" = "mixtral-8x7b" := by
  refine ⟨?_, ?_, ?_⟩ <;> rfl

theorem toLowerRune_ascii (tbl : Char → Char) (c : Char) (h : c.toNat < 128) :
    toLowerRune tbl c = c.toLower := by
  unfold toLowerRune Char.toLower
  simp only [h, if_true, Char.le_def]
  have e1 : ('A' : Char).val ≤ c.val ↔ c.val ≥ 65 := Iff.rfl
  have e2 : c.val ≤ ('Z' : Char).val ↔ c.val ≤ 90 := Iff.rfl
  simp only [e1, e2]
  rfl

theorem toLower_ascii (tbl : Char → Char) (s : String) (h : ∀ c ∈ s.data, c.toNat < 128) :
    toLower tbl s = s.map Char.toLower := by
  rw [String.map_eq]
  unfold toLower
  congr 1
  exact List.map_congr_left fun c hc => toLowerRune_ascii tbl c (h c hc)

/-! ## The claims -/

/-- C1: in streaming mode, for every upstream body made of newline-terminated
lines (the writes to the caller succeeding), the chunks emitted are exactly, in
arrival order, one chunk per line that starts with `"data: "` and whose payload
decodes to an object with a non-null string `"message"`, the chunk's delta
content being that string; every other line emits nothing and does not stop
the lines after it. -/
theorem C1_stream_chunks (unmarshal : Unmarshal) (writeOk : Nat → Bool) (model : String)
    (lines : List String) (hl : ∀ l ∈ lines, isLine l = true)
    (hw : ∀ k, writeOk k = true) :
    handleCompletion unmarshal writeOk model true (concatAll lines)
        = .chunks ((lines.filterMap (streamFragment unmarshal)).map (mkChunk model))
      ∧ ∀ s, (mkChunk model s).content = s := by
  refine ⟨?_, fun _ => rfl⟩
  simp only [handleCompletion, if_true, readLines_concatAll_self lines hl]
  rw [streamLoop_eq_filterMap unmarshal writeOk model hw]

/-- C1, the example of the specification: the four lines give exactly two
chunks, `"a"` then `"b"`. -/
theorem C1_stream_chunks_witness :
    (∀ l ∈ sampleLines, isLine l = true)
      ∧ handleCompletion jsonUnmarshal alwaysWrites "gpt-4o-mini" true (concatAll sampleLines)
          = .chunks [mkChunk "gpt-4o-mini" "a", mkChunk "gpt-4o-mini" "b"] :=
  ⟨by decide,
    (C1_stream_chunks jsonUnmarshal alwaysWrites "gpt-4o-mini" sampleLines (by decide)
      (fun _ => rfl)).1.trans (by decide)⟩

/-- C2, counterexample: at the padded line followed by a `"b"` line the
payload of the padded line does not parse, so the words of the claim give the
content `"b"`; the code trims the payload before decoding it and returns
`"ab"`. -/
theorem C2_counterexample :
    (∀ l ∈ [paddedLine, "data: \x7b\"message\":\"b\"\x7d\n"], isLine l = true)
      ∧ hasPrefix paddedLine "data: " = true
      ∧ (jsonUnmarshal (trimPrefix paddedLine "data: ")).isNone = true
      ∧ (jsonUnmarshal (trimSpace (trimPrefix paddedLine "data: "))).isSome = true
      ∧ claimedContent jsonUnmarshal [paddedLine, "data: \x7b\"message\":\"b\"\x7d\n"] = "b"
      ∧ handleCompletion jsonUnmarshal alwaysWrites "gpt-4o-mini" false
          (concatAll [paddedLine, "data: \x7b\"message\":\"b\"\x7d\n"])
          = .completion (mkCompletion "gpt-4o-mini" "ab")
      ∧ handleCompletion jsonUnmarshal alwaysWrites "gpt-4o-mini" false
          (concatAll [paddedLine, "data: \x7b\"message\":\"b\"\x7d\n"])
          ≠ .completion (mkCompletion "gpt-4o-mini"
              (claimedContent jsonUnmarshal
                [paddedLine, "data: \x7b\"message\":\"b\"\x7d\n"])) := by
  decide

/-- C2, amended: in non-streaming mode, for every upstream body made of
newline-terminated lines, one completion is returned whose content is the
concatenation, in arrival order, of the string `"message"` values of the
marked lines whose trimmed payload (the text after the marker without its
leading and trailing white space) decodes to an object, over the lines before
the first marked line whose trimmed payload is `"[DONE]"`; the content is empty
when there is no such fragment. -/
theorem C2_full_content (unmarshal : Unmarshal) (writeOk : Nat → Bool) (model : String)
    (lines : List String) (hl : ∀ l ∈ lines, isLine l = true) :
    handleCompletion unmarshal writeOk model false (concatAll lines)
        = .completion (mkCompletion model (trimmedContent unmarshal lines))
      ∧ (mkCompletion model (trimmedContent unmarshal lines)).content
          = concatAll ((lines.takeWhile fun l => !isSentinel l).filterMap
              (fullFragment unmarshal))
      ∧ ((lines.takeWhile fun l => !isSentinel l).filterMap (fullFragment unmarshal) = [] →
          handleCompletion unmarshal writeOk model false (concatAll lines)
            = .completion (mkCompletion model "")) := by
  have h : handleCompletion unmarshal writeOk model false (concatAll lines)
      = .completion (mkCompletion model (trimmedContent unmarshal lines)) := by
    simp only [handleCompletion, Bool.false_eq_true, if_false,
      readLines_concatAll_self lines hl]
    rw [fullLoop_eq_trimmedContent]
    simp
  refine ⟨h, rfl, fun he => ?_⟩
  rw [h]
  simp [trimmedContent, he, concatAll]

/-- C2 amended, at the example of the specification: the four lines aggregate
to `"ab"`. -/
theorem C2_full_content_witness :
    (∀ l ∈ sampleLines, isLine l = true)
      ∧ handleCompletion jsonUnmarshal alwaysWrites "gpt-4o-mini" false (concatAll sampleLines)
          = .completion (mkCompletion "gpt-4o-mini" "ab") :=
  ⟨by decide,
    (C2_full_content jsonUnmarshal alwaysWrites "gpt-4o-mini" sampleLines (by decide)).1.trans
      (by decide)⟩

/-- C10: in both modes, for every body made of newline-terminated lines and
every text `t` without a newline, the translation of the body followed by `t`
is the translation of the body alone: the unterminated last line is dropped. -/
theorem C10_unterminated_tail (unmarshal : Unmarshal) (writeOk : Nat → Bool)
    (model : String) (stream : Bool) (lines : List String) (t : String)
    (hl : ∀ l ∈ lines, isLine l = true) (ht : '\n' ∉ t.data) :
    handleCompletion unmarshal writeOk model stream (concatAll lines ++ t)
      = handleCompletion unmarshal writeOk model stream (concatAll lines) := by
  simp only [handleCompletion, readLines_concatAll lines t hl ht,
    readLines_concatAll_self lines hl]

/-- C10 at a body of one line followed by a valid fragment without its
newline: the fragment `"x"` yields no chunk and is absent from the content. -/
theorem C10_unterminated_tail_witness :
    handleCompletion jsonUnmarshal alwaysWrites "gpt-4o-mini" true
        (concatAll ["data: \x7b\"message\":\"a\"\x7d\n"] ++ "data: \x7b\"message\":\"x\"\x7d")
        = .chunks [mkChunk "gpt-4o-mini" "a"]
      ∧ handleCompletion jsonUnmarshal alwaysWrites "gpt-4o-mini" false
        (concatAll ["data: \x7b\"message\":\"a\"\x7d\n"] ++ "data: \x7b\"message\":\"x\"\x7d")
        = .completion (mkCompletion "gpt-4o-mini" "a") :=
  ⟨(C10_unterminated_tail jsonUnmarshal alwaysWrites "gpt-4o-mini" true
      ["data: \x7b\"message\":\"a\"\x7d\n"] "data: \x7b\"message\":\"x\"\x7d"
      (by decide) (by decide)).trans (by decide),
   (C10_unterminated_tail jsonUnmarshal alwaysWrites "gpt-4o-mini" false
      ["data: \x7b\"message\":\"a\"\x7d\n"] "data: \x7b\"message\":\"x\"\x7d"
      (by decide) (by decide)).trans (by decide)⟩

/-- C6, counterexample: the padded line is malformed in the words of the
claim (it is marked, its payload does not parse, it is not the sentinel), yet
inserting it before a `"b"` line changes the aggregated content of
non-streaming mode from `"b"` to `"ab"`. -/
theorem C6_counterexample :
    isLine paddedLine = true
      ∧ isLine "data: \x7b\"message\":\"b\"\x7d\n" = true
      ∧ claimedMalformedFull jsonUnmarshal paddedLine = true
      ∧ handleCompletion jsonUnmarshal alwaysWrites "gpt-4o-mini" false
          (concatAll ([] ++ paddedLine :: ["data: \x7b\"message\":\"b\"\x7d\n"]))
          = .completion (mkCompletion "gpt-4o-mini" "ab")
      ∧ handleCompletion jsonUnmarshal alwaysWrites "gpt-4o-mini" false
          (concatAll ([] ++ ["data: \x7b\"message\":\"b\"\x7d\n"]))
          = .completion (mkCompletion "gpt-4o-mini" "b")
      ∧ handleCompletion jsonUnmarshal alwaysWrites "gpt-4o-mini" false
          (concatAll ([] ++ paddedLine :: ["data: \x7b\"message\":\"b\"\x7d\n"]))
          ≠ handleCompletion jsonUnmarshal alwaysWrites "gpt-4o-mini" false
              (concatAll ([] ++ ["data: \x7b\"message\":\"b\"\x7d\n"])) := by
  decide

/-- C6, amended: in both modes, for every body of newline-terminated lines
and every malformed line `m` (no marker, or a marked line whose payload, in
non-streaming mode the payload without its leading and trailing white space,
is no JSON object and, in non-streaming mode, is not the sentinel), inserting
`m` at any position leaves the output unchanged: the same chunks in the same
order, the same aggregated content. -/
theorem C6_malformed_insert (unmarshal : Unmarshal) (writeOk : Nat → Bool) (model : String)
    (pre post : List String) (m : String) (hpre : ∀ l ∈ pre, isLine l = true)
    (hpost : ∀ l ∈ post, isLine l = true) (hm : isLine m = true) :
    (malformedStream unmarshal m = true →
        handleCompletion unmarshal writeOk model true (concatAll (pre ++ m :: post))
          = handleCompletion unmarshal writeOk model true (concatAll (pre ++ post)))
      ∧ (malformedFull unmarshal m = true →
        handleCompletion unmarshal writeOk model false (concatAll (pre ++ m :: post))
          = handleCompletion unmarshal writeOk model false (concatAll (pre ++ post))) := by
  have h1 : ∀ l ∈ pre ++ m :: post, isLine l = true := by
    intro l hx
    rcases List.mem_append.1 hx with h | h
    · exact hpre l h
    · rcases List.mem_cons.1 h with h | h
      · exact h ▸ hm
      · exact hpost l h
  have h2 : ∀ l ∈ pre ++ post, isLine l = true := by
    intro l hx
    rcases List.mem_append.1 hx with h | h
    · exact hpre l h
    · exact hpost l h
  constructor
  · intro hs
    simp only [handleCompletion, if_true, readLines_concatAll_self _ h1,
      readLines_concatAll_self _ h2]
    rw [streamLoop_insert unmarshal writeOk model m hs]
  · intro hf
    simp only [handleCompletion, Bool.false_eq_true, if_false,
      readLines_concatAll_self _ h1, readLines_concatAll_self _ h2]
    rw [fullLoop_insert unmarshal m hf]

/-- C6 amended, at a corrupt line put between two fragments: `"data: notjson"` is
malformed for both modes and the outputs are those of the two fragments. -/
theorem C6_malformed_insert_witness :
    malformedStream jsonUnmarshal "data: notjson\n" = true
      ∧ malformedFull jsonUnmarshal "data: notjson\n" = true
      ∧ handleCompletion jsonUnmarshal alwaysWrites "gpt-4o-mini" true
          (concatAll (["data: \x7b\"message\":\"a\"\x7d\n"] ++
            "data: notjson\n" :: ["data: \x7b\"message\":\"b\"\x7d\n"]))
          = .chunks [mkChunk "gpt-4o-mini" "a", mkChunk "gpt-4o-mini" "b"]
      ∧ handleCompletion jsonUnmarshal alwaysWrites "gpt-4o-mini" false
          (concatAll (["data: \x7b\"message\":\"a\"\x7d\n"] ++
            "data: notjson\n" :: ["data: \x7b\"message\":\"b\"\x7d\n"]))
          = .completion (mkCompletion "gpt-4o-mini" "ab") :=
  ⟨by decide, by decide,
    ((C6_malformed_insert jsonUnmarshal alwaysWrites "gpt-4o-mini"
      ["data: \x7b\"message\":\"a\"\x7d\n"] ["data: \x7b\"message\":\"b\"\x7d\n"]
      "data: notjson\n" (by decide) (by decide) (by decide)).1 (by decide)).trans (by decide),
    ((C6_malformed_insert jsonUnmarshal alwaysWrites "gpt-4o-mini"
      ["data: \x7b\"message\":\"a\"\x7d\n"] ["data: \x7b\"message\":\"b\"\x7d\n"]
      "data: notjson\n" (by decide) (by decide) (by decide)).2 (by decide)).trans (by decide)⟩

/-- C3: for messages with plain-text content, `prepareMessages` gives the
concatenation, in the original order and with no message dropped, of one
segment `"<role>:<content>;\r\n"` per message, `"system"` being written
`"user"` and every other role kept; the empty sequence gives `""`, and for all
messages `prepareMessages (xs ++ ys)` is `prepareMessages xs` followed by
`prepareMessages ys`. -/
theorem C3_plain_text (sprintV : JSON → String) :
    (∀ ps : List (String × String),
        prepareMessages sprintV (ps.map fun p => { role := p.1, content := .str p.2 })
          = concatAll (ps.map fun p => textSegment p.1 p.2))
      ∧ (∀ xs ys : List Message,
        prepareMessages sprintV (xs ++ ys)
          = prepareMessages sprintV xs ++ prepareMessages sprintV ys)
      ∧ prepareMessages sprintV [] = ""
      ∧ prepareMessages sprintV [{ role := "system", content := .str "hi" }] = "user:hi;\r\n"
      ∧ prepareMessages sprintV
          [{ role := "user", content := .str "1" }, { role := "assistant", content := .str "2" }]
          = "user:1;\r\nassistant:2;\r\n"
      ∧ prepareMessages sprintV [{ role := "tool", content := .str "x" }] = "tool:x;\r\n" := by
  refine ⟨?_, prepareMessages_append sprintV, rfl, rfl, rfl, rfl⟩
  intro ps
  induction ps with
  | nil => rfl
  | cons p ps ih =>
    rw [List.map_cons, prepareMessages_cons, ih]
    rfl

/-- C4: for a message whose content is a list of parts, the content text is
the concatenation, in list order and with no separator, of the `"text"` of
every part that is an object with a string-valued `"text"`; other parts
contribute nothing, and a list without a usable part gives the segment
`"<role>:;\r\n"`. -/
theorem C4_list_content (sprintV : JSON → String) (role : String) (parts : List JSON)
    (xs ys : List Message) :
    prepareMessages sprintV (xs ++ { role := role, content := .arr parts } :: ys)
        = prepareMessages sprintV xs
            ++ textSegment role (concatAll (parts.filterMap partText))
            ++ prepareMessages sprintV ys
      ∧ ((∀ p ∈ parts, partText p = none) →
          prepareMessages sprintV [{ role := role, content := .arr parts }]
            = (if role = "system" then "user" else role) ++ ":;\r\n")
      ∧ (∀ fields t, fields.lookup "text" = some (.str t) → partText (.obj fields) = some t)
      ∧ (∀ fields, fields.lookup "text" = none → partText (.obj fields) = none)
      ∧ (∀ fields v, fields.lookup "text" = some v → (∀ t, v ≠ .str t) →
        partText (.obj fields) = none)
      ∧ (∀ j, (∀ fields, j ≠ .obj fields) → partText j = none)
      ∧ prepareMessages sprintV
          [{ role := "user",
             content := .arr [.obj [("text", .str "a")], .obj [("other", .num "1")],
               .obj [("text", .str "b")]] }]
          = "user:ab;\r\n" := by
  have hone : ∀ r ps, prepareMessages sprintV [{ role := r, content := .arr ps }]
      = textSegment r (concatAll (ps.filterMap partText)) := by
    intro r ps
    rw [prepareMessages_cons]
    simp only [contentString, appendParts_eq, textSegment, messageRole]
    simp [prepareMessages, prepareLoop]
  refine ⟨?_, ?_, ?_, ?_, ?_, ?_, rfl⟩
  · rw [prepareMessages_append, prepareMessages_cons]
    simp only [contentString, appendParts_eq, textSegment, messageRole]
    simp [String.append_assoc]
  · intro hnone
    rw [hone, List.filterMap_eq_nil_iff.2 hnone]
    simp [textSegment, concatAll, String.append_assoc]
  · intro fields t h
    simp [partText, h]
  · intro fields h
    simp [partText, h]
  · intro fields v h hv
    cases v with
    | str t => exact absurd rfl (hv t)
    | _ => simp [partText, h]
  · intro j hj
    cases j with
    | obj fields => exact absurd rfl (hj fields)
    | _ => rfl

/-- C5: `convertModel` returns, for every input, the canonical identifier of
the alias the input equals up to letter case (lower-cased forms equal), and
the default `"gpt-4o-mini"` for every other input, the empty string included;
the result is always one of the four canonical identifiers. The aliases are
their own lower-cased forms, and on ASCII input the lower-cased form is the
text with `A` to `Z` replaced by `a` to `z`. -/
theorem C5_convertModel (unicodeToLower : Char → Char) (s : String) :
    (toLower unicodeToLower s = toLower unicodeToLower "claude-3-haiku" →
        convertModel unicodeToLower s = "claude-3-haiku-20240307")
      ∧ (toLower unicodeToLower s = toLower unicodeToLower "llama-3.1-70b" →
        convertModel unicodeToLower s = "meta-llama/Meta-Llama-3.1-70B-Instruct-Turbo")
      ∧ (toLower unicodeToLower s = toLower unicodeToLower "mixtral-8x7b" →
        convertModel unicodeToLower s = "mistralai/Mixtral-8x7B-Instruct-v0.1")
      ∧ (toLower unicodeToLower s ≠ toLower unicodeToLower "claude-3-haiku" →
          toLower unicodeToLower s ≠ toLower unicodeToLower "llama-3.1-70b" →
          toLower unicodeToLower s ≠ toLower unicodeToLower "mixtral-8x7b" →
        convertModel unicodeToLower s = "gpt-4o-mini")
      ∧ convertModel unicodeToLower "" = "gpt-4o-mini"
      ∧ convertModel unicodeToLower s ∈
          ["claude-3-haiku-20240307", "meta-llama/Meta-Llama-3.1-70B-Instruct-Turbo",
            "mistralai/Mixtral-8x7B-Instruct-v0.1", "gpt-4o-mini"]
      ∧ convertModel unicodeToLower "CLAUDE-3-Haiku" = "claude-3-haiku-20240307"
      ∧ convertModel unicodeToLower "Llama-3.1-70B"
          = "meta-llama/Meta-Llama-3.1-70B-Instruct-Turbo"
      ∧ convertModel unicodeToLower "MIXTRAL-8x7b" = "mistralai/Mixtral-8x7B-Instruct-v0.1"
      ∧ convertModel unicodeToLower "gpt-4" = "gpt-4o-mini"
      ∧ toLower unicodeToLower "claude-3-haiku" = "claude-3-haiku"
      ∧ toLower unicodeToLower "llama-3.1-70b" = "llama-3.1-70b"
      ∧ toLower unicodeToLower "mixtral-8x7b" = "mixtral-8x7b"
      ∧ ((∀ c ∈ s.data, c.toNat < 128) →
        toLower unicodeToLower s = s.map Char.toLower) := by
  obtain ⟨h1, h2, h3⟩ := toLower_ascii_fixed unicodeToLower
  rw [h1, h2, h3]
  refine ⟨?_, ?_, ?_, ?_, rfl, ?_, rfl, rfl, rfl, rfl, rfl, rfl, rfl,
    toLower_ascii unicodeToLower s⟩
  · intro h
    simp [convertModel, h]
  · intro h
    simp [convertModel, h]
  · intro h
    simp [convertModel, h]
  · intro a b c
    simp [convertModel, a, b, c]
  · unfold convertModel
    simp only
    split
    · simp
    · split
      · simp
      · split <;> simp

/-- C7, counterexample: a 201 response carrying the token header is a 2xx
response with the header present, and `requestToken` returns no token but the
status error. -/
theorem C7_counterexample :
    requestToken (.ok (sampleResponse 201 "tok" "created"))
        = ("", some "非200响应: 201, 内容: created")
      ∧ (sampleResponse 201 "tok" "created").header "x-vqd-4" = "tok"
      ∧ requestToken (.ok (sampleResponse 204 "" ""))
        ≠ ("", some "响应中未包含x-vqd-4头") := by
  decide

/-- C7, amended: `requestToken` returns the value of the `"x-vqd-4"` response
header exactly when the status is 200 and that header is non-empty; for every
status other than 200 it returns an error whose message carries the status
code and the response body; for a 200 response lacking the header it returns
the missing-header error, which differs from every status error; it never
returns an empty token without an error. -/
theorem C7_requestToken (resp : Response) :
    ((requestToken (.ok resp)).2 = none ↔
        resp.statusCode = 200 ∧ resp.header "x-vqd-4" ≠ "")
      ∧ ((requestToken (.ok resp)).2 = none →
        (requestToken (.ok resp)).1 = resp.header "x-vqd-4")
      ∧ (resp.statusCode ≠ 200 →
        requestToken (.ok resp)
          = ("", some ("非200响应: " ++ toString resp.statusCode ++ ", 内容: " ++ resp.body)))
      ∧ (resp.statusCode = 200 → resp.header "x-vqd-4" = "" →
        requestToken (.ok resp) = ("", some "响应中未包含x-vqd-4头"))
      ∧ (∀ (n : Nat) (b : String),
        "响应中未包含x-vqd-4头" ≠ "非200响应: " ++ toString n ++ ", 内容: " ++ b)
      ∧ ((requestToken (.ok resp)).2 = none → (requestToken (.ok resp)).1 ≠ "")
      ∧ requestToken (.ok (sampleResponse 200 "tok" "")) = ("tok", none)
      ∧ requestToken (.ok (sampleResponse 500 "tok" "down"))
          = ("", some "非200响应: 500, 内容: down") := by
  have key : ∀ (n : Nat) (b : String),
      "响应中未包含x-vqd-4头" ≠ "非200响应: " ++ toString n ++ ", 内容: " ++ b := by
    intro n b h
    have h2 := congrArg (fun s : String => s.data.head?) h
    simp only [String.data_append, String.append_assoc] at h2
    simp at h2
  refine ⟨?_, ?_, ?_, ?_, key, ?_, by decide, by decide⟩
  · unfold requestToken
    by_cases hs : resp.statusCode = 200
    · by_cases hh : resp.header "x-vqd-4" = "" <;> simp [hs, hh]
    · simp [hs]
  · unfold requestToken
    by_cases hs : resp.statusCode = 200
    · by_cases hh : resp.header "x-vqd-4" = "" <;> simp [hs, hh]
    · simp [hs]
  · intro hs
    simp [requestToken, hs]
  · intro hs hh
    simp [requestToken, hs, hh]
  · unfold requestToken
    by_cases hs : resp.statusCode = 200
    · by_cases hh : resp.header "x-vqd-4" = "" <;> simp [hs, hh]
    · simp [hs]

/-- C8, the code at a body whose sentinel is followed by a fragment:
streaming mode still emits the chunk `"late"`, while non-streaming mode stops
at the sentinel; in non-streaming mode no line after a sentinel ever
contributes. -/
theorem C8_stream_ignores_sentinel :
    handleCompletion jsonUnmarshal alwaysWrites "gpt-4o-mini" true
        "data: [DONE]\ndata: \x7b\"message\":\"late\"\x7d\n"
        = .chunks [mkChunk "gpt-4o-mini" "late"]
      ∧ handleCompletion jsonUnmarshal alwaysWrites "gpt-4o-mini" false
        "data: [DONE]\ndata: \x7b\"message\":\"late\"\x7d\n"
        = .completion (mkCompletion "gpt-4o-mini" "")
      ∧ isSentinel "data: [DONE]\n" = true
      ∧ (∀ (unmarshal : Unmarshal) (s : String) (pre post : List String),
        isSentinel s = true →
          fullLoop unmarshal "" (pre ++ s :: post) = fullLoop unmarshal "" pre) := by
  refine ⟨by decide, by decide, by decide, ?_⟩
  intro unmarshal s pre post hs
  exact fullLoop_sentinel unmarshal s hs pre post ""

/-- C9, counterexample: the line `data: {"message":""}` carries no non-empty
fragment, yet streaming mode emits one chunk for it, with empty delta
content. -/
theorem C9_counterexample :
    handleCompletion jsonUnmarshal alwaysWrites "gpt-4o-mini" true
        "data: \x7b\"message\":\"\"\x7d\n"
        = .chunks [mkChunk "gpt-4o-mini" ""]
      ∧ (mkChunk "gpt-4o-mini" "").content = ""
      ∧ ((readLines "data: \x7b\"message\":\"\"\x7d\n").filter
          (carriesNonEmpty jsonUnmarshal)).length = 0 := by
  decide

/-- C9, amended: in streaming mode (the writes succeeding) the number of
chunks emitted equals the number of lines carrying a string `"message"`,
empty or not, and the delta contents are those strings in order; a line whose
`"message"` is the empty string produces one chunk with empty content. -/
theorem C9_chunk_count (unmarshal : Unmarshal) (writeOk : Nat → Bool) (model : String)
    (lines : List String) (hl : ∀ l ∈ lines, isLine l = true)
    (hw : ∀ k, writeOk k = true) :
    ∃ cs, handleCompletion unmarshal writeOk model true (concatAll lines) = .chunks cs
      ∧ cs.length = (lines.filter (carriesString unmarshal)).length
      ∧ cs.map (fun c => c.content) = lines.filterMap (streamFragment unmarshal) := by
  refine ⟨(lines.filterMap (streamFragment unmarshal)).map (mkChunk model), ?_, ?_, ?_⟩
  · simp only [handleCompletion, if_true, readLines_concatAll_self lines hl]
    rw [streamLoop_eq_filterMap unmarshal writeOk model hw]
  · rw [List.length_map]
    clear hl
    induction lines with
    | nil => rfl
    | cons l ls ih =>
      cases hf : streamFragment unmarshal l with
      | none => simp [List.filterMap_cons, List.filter_cons, carriesString, hf, ih]
      | some s => simp [List.filterMap_cons, List.filter_cons, carriesString, hf, ih]
  · simp [List.map_map, Function.comp_def, mkChunk]

/-- C9 amended, at two lines of which the first carries the empty string:
two chunks, the first with empty content. -/
theorem C9_chunk_count_witness :
    ∃ cs, handleCompletion jsonUnmarshal alwaysWrites "gpt-4o-mini" true
        (concatAll ["data: \x7b\"message\":\"\"\x7d\n", "data: \x7b\"message\":\"b\"\x7d\n"])
        = .chunks cs
      ∧ cs.length
          = (["data: \x7b\"message\":\"\"\x7d\n", "data: \x7b\"message\":\"b\"\x7d\n"].filter
              (carriesString jsonUnmarshal)).length
      ∧ cs.map (fun c => c.content)
          = ["data: \x7b\"message\":\"\"\x7d\n", "data: \x7b\"message\":\"b\"\x7d\n"].filterMap
              (streamFragment jsonUnmarshal) :=
  C9_chunk_count jsonUnmarshal alwaysWrites "gpt-4o-mini"
    ["data: \x7b\"message\":\"\"\x7d\n", "data: \x7b\"message\":\"b\"\x7d\n"]
    (by decide) (fun _ => rfl)
end DDG
